import Mathlib

/-!
Verification of the incremental embedding-index builder
(`src/scripts/build-embeddings.mjs`).

The script is shallowly embedded below: its pure helpers
(`deriveSlug`, `markdownToPlain`'s post-processing, `chunkText`) become Lean
functions on `String`/`List Char`, and the effectful main IIFE becomes an
explicit state-passing `run` function.  External collaborators (the remark
markdown stripper, the `@xenova/transformers` extractor, the filesystem) are
parameters: the stripper is an arbitrary `String → String`, the extractor an
arbitrary fallible `List String → Except Unit (List Vec)`, and the on-disk
artifact an `Option (List IndexEntry)` threaded in and out of `run`.
-/

namespace AiSearch

/-! ## JavaScript string primitives

`\s` in a JavaScript regular expression matches the ECMAScript WhiteSpace and
LineTerminator sets; `String.prototype.trim` strips the same set from both
ends.  We model that character class and the derived `trim`. -/

/-- The ECMAScript `\s` character class (WhiteSpace ∪ LineTerminator). -/
def jsWhitespace (c : Char) : Bool :=
  c = ' ' || c = '\t' || c = '\n' || c = '\r' ||
  c = '\x0b' || c = '\x0c' || c = '\u00a0' ||
  c = '\u1680' || ('\u2000' ≤ c && c ≤ '\u200a') ||
  c = '\u2028' || c = '\u2029' || c = '\u202f' ||
  c = '\u205f' || c = '\u3000' || c = '\ufeff'

/-- `String.prototype.trim` on the character-list model: drop leading and
trailing `\s` characters. -/
def jsTrimList (l : List Char) : List Char :=
  ((l.dropWhile jsWhitespace).reverse.dropWhile jsWhitespace).reverse

/-- `s.trim()` for a JavaScript string `s`. -/
def jsTrim (s : String) : String := String.mk (jsTrimList s.data)

/-- `.replace(/\s+/g, " ")`: collapse every maximal run of `\s` characters
into a single space.  The boolean tracks whether the previous character was
part of a whitespace run. -/
def squashWsAux : List Char → Bool → List Char
  | [], _ => []
  | c :: rest, inRun =>
    if jsWhitespace c then
      if inRun then squashWsAux rest true
      else ' ' :: squashWsAux rest true
    else c :: squashWsAux rest false

/-- `s.replace(/\s+/g, " ")`. -/
def squashWs (s : String) : String := String.mk (squashWsAux s.data false)

/-- `markdownToPlain` (source lines 48–51).  The remark + strip-markdown stage
is an external collaborator (spec §1, §6): `stripped` stands for its output
`String(file)`.  The function's own pure tail is
`String(file).replace(/\s+/g, " ").trim()`. -/
def markdownToPlain (stripped : String) : String := jsTrim (squashWs stripped)

/-! ## Chunker (`chunkText`, source lines 54–60) -/

/-- `text.split(/\n{2,}/g)` on the character-list model.  `acc` is the
current piece reversed, `nl` counts pending newline characters: a pending run
of two or more is a separator, a shorter run is ordinary content. -/
def splitBlankAux : List Char → List Char → Nat → List (List Char)
  | [], acc, nl =>
    if 2 ≤ nl then [acc.reverse, []]
    else [(List.replicate nl '\n' ++ acc).reverse]
  | c :: rest, acc, nl =>
    if c = '\n' then splitBlankAux rest acc (nl + 1)
    else if 2 ≤ nl then acc.reverse :: splitBlankAux rest [c] 0
    else splitBlankAux rest (c :: (List.replicate nl '\n' ++ acc)) 0

/-- `text.split(/\n{2,}/g)`: split on every maximal run of two or more
consecutive newline characters. -/
def splitBlank (s : String) : List String :=
  (splitBlankAux s.data [] 0).map String.mk

/-- One paragraph-level chunk, `{id, text}` in the source. -/
structure Chunk where
  id : String
  text : String
  deriving DecidableEq, Repr

/-- `paras.map((p, i) => ({id: baseSlug#para-i, text: p}))`: JavaScript
`Array.prototype.map` hands the callback the element's index, modelled by an
explicit counter. -/
def chunkGo (baseSlug : String) : Nat → List String → List Chunk
  | _, [] => []
  | i, p :: ps =>
    { id := baseSlug ++ "#para-" ++ toString i, text := p } :: chunkGo baseSlug (i + 1) ps

/-- `chunkText` (source lines 54–60): split on blank-line runs, keep the
candidates whose trimmed length exceeds 40, number the survivors. -/
def chunkText (text baseSlug : String) : List Chunk :=
  chunkGo baseSlug 0 ((splitBlank text).filter fun p => decide (40 < (jsTrim p).length))

/-! ## Slug derivation (`deriveSlug`, source lines 36–46) -/

/-- `.replace(/\\/g, "/")`. -/
def replaceBackslash (s : String) : String :=
  String.mk (s.data.map fun c => if c = '\\' then '/' else c)

/-- `String.prototype.endsWith` on the character-list model. -/
def endsWithStr (s suff : String) : Bool := suff.data.isSuffixOf s.data

/-- `.replace(/\.mdx?$/, "")`: the greedy regex removes a final `.mdx`, else a
final `.md`. -/
def stripMdExt (s : String) : String :=
  if endsWithStr s ".mdx" then s.dropRight 4
  else if endsWithStr s ".md" then s.dropRight 3
  else s

/-- `.replace(/\/index$/, "")`. -/
def stripIndexSuffix (s : String) : String :=
  if endsWithStr s "/index" then s.dropRight 6 else s

/-- `String.prototype.toLowerCase` restricted to the simple case mapping. -/
def toLowerCaseStr (s : String) : String := String.mk (s.data.map Char.toLower)

/-- The path-derived branch of `deriveSlug`.  `path.relative(CONTENT_DIR, …)`
is filesystem path resolution, external to the core (spec §1): `relPath` is
the document's corpus-relative path it yields. -/
def slugFromPath (relPath : String) : String :=
  toLowerCaseStr (stripIndexSuffix (stripMdExt (replaceBackslash relPath)))

/-- `deriveSlug` (source lines 36–46).  A present front-matter slug is used
(trimmed, case untouched) when it is a non-empty string with non-blank trim:
`fmSlug && fmSlug.trim()`; `some ""` is falsy in JavaScript and `jsTrim ""`
is `""`, so both falsy gates collapse to `jsTrim s = ""`. -/
def deriveSlug (relPath : String) (fmSlug : Option String) : String :=
  match fmSlug with
  | some s => if jsTrim s = "" then slugFromPath relPath else jsTrim s
  | none => slugFromPath relPath

/-! ## The build driver (the async IIFE, source lines 64–161)

External effects become explicit data:

* `glob` enumeration yields `files : List SrcFile`; the corpus-relative path
  and `+stat.mtime` are fields, and `gray-matter` parsing (which throws on
  malformed front matter) is `parsed : Option Front`.
* the on-disk artifact `public/semantic-index.json` is
  `disk : Option (List IndexEntry)` — `none` when absent/unreadable.
* the extractor is `extractor : List String → Except Unit (List Vec)`:
  an `Except.error` models the provider call throwing.  The texts of every
  provider invocation are recorded in `calls`.
* the progress bar, directory creation and the model-asset copy are pure side
  effects with no bearing on the artifact and are omitted.
-/

/-- Embedding vectors; their numeric content is opaque to the builder
(`Array.from(outputs[i].data)`), so an abstract list of integers suffices. -/
abbrev Vec := List Int

/-- The front-matter fields the script reads (`fm.draft`, `fm.slug`,
`fm.title`, `fm.description`) plus the body `content`. -/
structure Front where
  draft : Bool
  slug : Option String
  title : Option String
  description : Option String
  body : String
  deriving DecidableEq, Repr

/-- One enumerated file: corpus-relative path, `+stat.mtime`, and the result
of `matter(contentRaw)` (`none` = gray-matter throws). -/
structure SrcFile where
  relPath : String
  mtime : Nat
  parsed : Option Front
  deriving DecidableEq, Repr

/-- `item.meta` pushed with each queued fragment (source lines 139–144). -/
structure Meta where
  id : String
  slug : String
  title : String
  description : String
  mtime : Nat
  deriving DecidableEq, Repr

/-- A queued item: `{meta, text}`. -/
structure QItem where
  meta : Meta
  text : String
  deriving DecidableEq, Repr

/-- One record of the output artifact: `{...item.meta, vector}`. -/
structure IndexEntry where
  id : String
  slug : String
  title : String
  description : String
  mtime : Nat
  vector : Vec
  deriving DecidableEq, Repr

/-- How a build run can abort: gray-matter throwing on front matter, or the
extractor call throwing (including misaligned output, where indexing
`outputs[i].data` past the end throws). -/
inductive BuildErr
  | malformed
  | provider
  deriving DecidableEq, Repr

/-- Mutable state of the main loop: `queue`, `embeddings`, and the recorded
provider invocations. -/
structure LoopState where
  queue : List QItem
  embeddings : List IndexEntry
  calls : List (List String)
  deriving DecidableEq, Repr

/-- Outcome of one whole run: the artifact on disk afterwards, whether the
process finished normally, and every texts-list the provider was called on. -/
structure RunResult where
  disk : Option (List IndexEntry)
  result : Except BuildErr Unit
  calls : List (List String)
  deriving Repr

def BATCH_SIZE : Nat := 16

def MAX_CONCURRENCY : Nat := 2

/-- JavaScript `a || b` for an optional string field: `undefined` and `""`
are falsy. -/
def jsOrStr (o : Option String) (d : String) : String :=
  match o with
  | some s => if s = "" then d else s
  | none => d

/-- `prev[e.id] = e.mtime` over the parsed previous artifact: a map keyed by
entry **id** (later entries overwrite earlier ones). -/
def buildPrev (raw : List IndexEntry) (k : String) : Option Nat :=
  ((raw.filter fun e => e.id == k).getLast?).map IndexEntry.mtime

/-- `prev[slug] && prev[slug] === mtime` (source line 131): the stored number
must be truthy (non-zero) and equal to the document's mtime. -/
def skipUnchanged (prev : String → Option Nat) (slug : String) (mtime : Nat) : Bool :=
  match prev slug with
  | some pm => pm != 0 && pm == mtime
  | none => false

/-- `{...item.meta, vector: Array.from(outputs[i].data)}`. -/
def entryOf (it : QItem) (v : Vec) : IndexEntry :=
  { id := it.meta.id, slug := it.meta.slug, title := it.meta.title,
    description := it.meta.description, mtime := it.meta.mtime, vector := v }

/-- `flushBatch` (source lines 101–113): no-op on an empty queue; otherwise
splice off `BATCH_SIZE` items, call the extractor on their texts, and append
one entry per item pairing the i-th item with the i-th output vector.  A
throwing extractor, or an output array shorter than the batch (so that
`outputs[i].data` throws), aborts the run. -/
def flushBatch (extractor : List String → Except Unit (List Vec))
    (st : LoopState) : Except BuildErr LoopState :=
  if st.queue.isEmpty then .ok st
  else
    let batch := st.queue.take BATCH_SIZE
    let texts := batch.map QItem.text
    match extractor texts with
    | .error _ => .error .provider
    | .ok outputs =>
      if outputs.length < batch.length then .error .provider
      else
        .ok { queue := st.queue.drop BATCH_SIZE,
              embeddings := st.embeddings ++ (batch.zip outputs).map fun p => entryOf p.1 p.2,
              calls := st.calls ++ [texts] }

/-- The queue items one document contributes (source lines 126–144): nothing
when it is a draft or passes the skip-unchanged test, else one item per chunk
of its stripped body, with text `title + ". " + description + ". " + chunk`. -/
def docItems (stripMd : String → String) (prev : String → Option Nat)
    (f : SrcFile) : List QItem :=
  match f.parsed with
  | none => []
  | some fm =>
    if fm.draft then []
    else
      let slug := deriveSlug f.relPath fm.slug
      if skipUnchanged prev slug f.mtime then []
      else
        let title := jsOrStr fm.title slug
        let description := jsOrStr fm.description ""
        (chunkText (markdownToPlain (stripMd fm.body)) slug).map fun ch =>
          { meta := { id := ch.id, slug := slug, title := title,
                      description := description, mtime := f.mtime },
            text := title ++ ". " ++ description ++ ". " ++ ch.text }

/-- One iteration of the document loop (source lines 115–150).  Unparseable
front matter throws out of the loop; a draft or unchanged document
`continue`s (skipping the throttle check); otherwise the document's items are
pushed and one batch is flushed when the queue has reached
`BATCH_SIZE * MAX_CONCURRENCY`. -/
def processDoc (stripMd : String → String)
    (extractor : List String → Except Unit (List Vec))
    (prev : String → Option Nat) (f : SrcFile) (st : LoopState) :
    Except BuildErr LoopState :=
  match f.parsed with
  | none => .error .malformed
  | some fm =>
    if fm.draft then .ok st
    else if skipUnchanged prev (deriveSlug f.relPath fm.slug) f.mtime then .ok st
    else
      let st2 : LoopState := { st with queue := st.queue ++ docItems stripMd prev f }
      if BATCH_SIZE * MAX_CONCURRENCY ≤ st2.queue.length then flushBatch extractor st2
      else .ok st2

/-- `for (const filePath of files) { … }`. -/
def loopDocs (stripMd : String → String)
    (extractor : List String → Except Unit (List Vec))
    (prev : String → Option Nat) :
    List SrcFile → LoopState → Except BuildErr LoopState
  | [], st => .ok st
  | f :: fs, st =>
    match processDoc stripMd extractor prev f st with
    | .error e => .error e
    | .ok st2 => loopDocs stripMd extractor prev fs st2

/-- The whole build (source lines 64–161).  An empty enumeration writes the
empty artifact at once; otherwise the previous artifact is reduced to the
id-keyed mtime map, the document loop runs, the remainder is flushed once,
and only a normally-finishing run overwrites the artifact — any thrown error
leaves `disk` untouched. -/
def run (stripMd : String → String)
    (extractor : List String → Except Unit (List Vec))
    (files : List SrcFile) (disk : Option (List IndexEntry)) : RunResult :=
  if files.isEmpty then { disk := some [], result := .ok (), calls := [] }
  else
    match loopDocs stripMd extractor (buildPrev (disk.getD [])) files ⟨[], [], []⟩ with
    | .error e => { disk := disk, result := .error e, calls := [] }
    | .ok st =>
      match flushBatch extractor st with
      | .error e => { disk := disk, result := .error e, calls := [] }
      | .ok st2 => { disk := some st2.embeddings, result := .ok (), calls := st2.calls }

/-! ## Helper lemmas about the string pipeline -/

theorem stringMkData (s : String) : String.mk s.data = s := rfl

theorem newline_not_mem_squashWsAux : ∀ (l : List Char) (b : Bool), '\n' ∉ squashWsAux l b := by
  intro l
  induction l with
  | nil => intro b; simp [squashWsAux]
  | cons c rest ih =>
    intro b
    simp only [squashWsAux]
    by_cases hw : jsWhitespace c
    · simp only [hw, if_true]
      cases b
      · simp only [Bool.false_eq_true, if_false]
        intro h
        rcases List.mem_cons.mp h with h1 | h2
        · exact absurd h1 (by decide)
        · exact ih true h2
      · simpa using ih true
    · simp only [hw, Bool.false_eq_true, if_false]
      intro h
      rcases List.mem_cons.mp h with h1 | h2
      · rw [← h1] at hw
        exact hw (by decide)
      · exact ih false h2

theorem mem_of_mem_jsTrimList {c : Char} {l : List Char} (h : c ∈ jsTrimList l) : c ∈ l := by
  unfold jsTrimList at h
  rw [List.mem_reverse] at h
  have h2 := (List.dropWhile_sublist jsWhitespace).subset h
  rw [List.mem_reverse] at h2
  exact (List.dropWhile_sublist jsWhitespace).subset h2

theorem newline_not_mem_markdownToPlain (s : String) : '\n' ∉ (markdownToPlain s).data := by
  intro h
  exact newline_not_mem_squashWsAux s.data false (mem_of_mem_jsTrimList h)

theorem splitBlankAux_of_no_newline :
    ∀ (l acc : List Char), (∀ c ∈ l, c ≠ '\n') → splitBlankAux l acc 0 = [acc.reverse ++ l] := by
  intro l
  induction l with
  | nil => intro acc _; simp [splitBlankAux]
  | cons c rest ih =>
    intro acc h
    have hc : c ≠ '\n' := h c (List.mem_cons_self c rest)
    simp only [splitBlankAux, if_neg hc]
    rw [if_neg (by omega)]
    simp only [List.replicate_zero, List.nil_append]
    rw [ih (c :: acc) (fun d hd => h d (List.mem_cons_of_mem c hd))]
    simp

theorem splitBlank_of_no_newline (s : String) (h : ∀ c ∈ s.data, c ≠ '\n') :
    splitBlank s = [s] := by
  unfold splitBlank
  rw [splitBlankAux_of_no_newline s.data [] h]
  simp [stringMkData]

theorem chunkGo_map_text (baseSlug : String) :
    ∀ (n : Nat) (ps : List String), (chunkGo baseSlug n ps).map Chunk.text = ps := by
  intro n ps
  induction ps generalizing n with
  | nil => rfl
  | cons p ps ih => simp [chunkGo, ih]

theorem chunkGo_get_id (baseSlug : String) :
    ∀ (ps : List String) (n i : Nat) (h : i < (chunkGo baseSlug n ps).length),
      ((chunkGo baseSlug n ps).get ⟨i, h⟩).id = baseSlug ++ "#para-" ++ toString (n + i) := by
  intro ps
  induction ps with
  | nil => intro n i h; simp [chunkGo] at h
  | cons p ps ih =>
    intro n i h
    cases i with
    | zero => simp [chunkGo]
    | succ j =>
      have h' : j < (chunkGo baseSlug (n + 1) ps).length := by
        simpa [chunkGo] using h
      have := ih (n + 1) j h'
      have harith : n + 1 + j = n + (j + 1) := by omega
      rw [harith] at this
      simpa [chunkGo] using this

/-! ## Claim theorems: the chunking pipeline -/

/-- **C4**: for every markdown body (represented by the stripped text `s` the
external converter returns), `markdownToPlain` collapses every whitespace run
to a single space, so its output contains no blank-line boundary and
`chunkText` never splits it: the composition yields zero fragments when the
trimmed length does not exceed 40, and otherwise exactly one fragment
spanning the whole plain body. -/
theorem chunk_of_markdownToPlain (s baseSlug : String) :
    (40 < (jsTrim (markdownToPlain s)).length →
      chunkText (markdownToPlain s) baseSlug =
        [{ id := baseSlug ++ "#para-" ++ toString 0, text := markdownToPlain s }])
  ∧ ((jsTrim (markdownToPlain s)).length ≤ 40 →
      chunkText (markdownToPlain s) baseSlug = []) := by
  have hnl : ∀ c ∈ (markdownToPlain s).data, c ≠ '\n' :=
    fun c hc hne => newline_not_mem_markdownToPlain s (hne ▸ hc)
  have hsplit : splitBlank (markdownToPlain s) = [markdownToPlain s] :=
    splitBlank_of_no_newline _ hnl
  constructor
  · intro hlen
    unfold chunkText
    rw [hsplit]
    have hd : decide (40 < (jsTrim (markdownToPlain s)).length) = true :=
      decide_eq_true hlen
    simp [List.filter, hd, chunkGo]
  · intro hlen
    unfold chunkText
    rw [hsplit]
    have hd : decide (40 < (jsTrim (markdownToPlain s)).length) = false := by
      simp only [decide_eq_false_iff_not, not_lt]
      exact hlen
    simp [List.filter, hd, chunkGo]

/-- The 45-character document body used by the concrete runs below. -/
def bodyA : String := "aaaaaaaaaaaaaaaaaaaaaaaaaaaaaaaaaaaaaaaaaaaaa"

theorem chunk_of_markdownToPlain_witness :
    chunkText (markdownToPlain bodyA) "a" =
      [{ id := "a" ++ "#para-" ++ toString 0, text := markdownToPlain bodyA }] :=
  (chunk_of_markdownToPlain bodyA "a").1 (by decide)

/-- A paragraph whose trimmed length is exactly 40 characters. -/
def bodyForty : String := "aaaaaaaaaaaaaaaaaaaaaaaaaaaaaaaaaaaaaaaa"

/-- **C5 counterexample**: the claim keeps a candidate of exactly 40 trimmed
characters, but the source filter is `p.trim().length > 40`, which discards
it: a 40-character paragraph yields zero fragments. -/
theorem chunkText_forty_discarded : chunkText bodyForty "s" = [] := by decide

/-- **C5 (amended)**: the chunker splits on runs of two or more newlines,
measures each candidate by its trimmed length, keeps exactly the candidates
whose trimmed length *exceeds* 40 (40 or fewer — including exactly 40 — is
discarded), preserves their original order, and names the i-th survivor
`slug#para-i`; an all-short split yields zero fragments. -/
theorem chunkText_spec (text baseSlug : String) :
    ((chunkText text baseSlug).map Chunk.text =
        (splitBlank text).filter (fun p => decide (40 < (jsTrim p).length)))
  ∧ (∀ i, ∀ h : i < (chunkText text baseSlug).length,
      ((chunkText text baseSlug).get ⟨i, h⟩).id = baseSlug ++ "#para-" ++ toString i)
  ∧ ((∀ p ∈ splitBlank text, (jsTrim p).length ≤ 40) → chunkText text baseSlug = []) := by
  refine ⟨chunkGo_map_text baseSlug 0 _, ?_, ?_⟩
  · intro i h
    have := chunkGo_get_id baseSlug _ 0 i h
    simpa using this
  · intro hall
    unfold chunkText
    have hfil : (splitBlank text).filter (fun p => decide (40 < (jsTrim p).length)) = [] := by
      rw [List.filter_eq_nil_iff]
      intro p hp
      simp only [decide_eq_true_eq, not_lt]
      exact hall p hp
    rw [hfil]
    rfl

/-- A second 45-character paragraph, distinct from `bodyA`. -/
def bodyB : String := "bbbbbbbbbbbbbbbbbbbbbbbbbbbbbbbbbbbbbbbbbbbbb"

/-- Two long paragraphs separated by a blank line. -/
def twoParas : String := bodyA ++ "\n\n" ++ bodyB

theorem chunkText_spec_witness :
    (chunkText twoParas "s").map Chunk.text =
      (splitBlank twoParas).filter (fun p => decide (40 < (jsTrim p).length)) ∧
    ((chunkText twoParas "s").get ⟨1, by decide⟩).id = "s" ++ "#para-" ++ toString 1 :=
  ⟨(chunkText_spec twoParas "s").1, (chunkText_spec twoParas "s").2.1 1 (by decide)⟩

/-- **C6**: the derived slug is the trimmed front-matter override whenever one
is present with a non-blank trim (verbatim, not lower-cased); otherwise it is
the corpus-relative path with backslashes normalised, the `.md`/`.mdx`
extension removed, a trailing `/index` removed, and the result lower-cased. -/
theorem deriveSlug_spec (relPath : String) (fmSlug : Option String) :
    (∀ s, fmSlug = some s → jsTrim s ≠ "" → deriveSlug relPath fmSlug = jsTrim s)
  ∧ ((fmSlug = none ∨ ∃ s, fmSlug = some s ∧ jsTrim s = "") →
      deriveSlug relPath fmSlug =
        toLowerCaseStr (stripIndexSuffix (stripMdExt (replaceBackslash relPath)))) := by
  constructor
  · intro s hs hne
    subst hs
    simp [deriveSlug, hne]
  · rintro (rfl | ⟨s, rfl, hblank⟩)
    · rfl
    · simp [deriveSlug, hblank, slugFromPath]

theorem deriveSlug_spec_witness :
    deriveSlug "x.md" (some " Custom-Slug ") = jsTrim " Custom-Slug " ∧
    deriveSlug "guides/intro/index.md" none =
      toLowerCaseStr (stripIndexSuffix (stripMdExt (replaceBackslash "guides/intro/index.md"))) ∧
    jsTrim " Custom-Slug " = "Custom-Slug" ∧
    toLowerCaseStr (stripIndexSuffix (stripMdExt (replaceBackslash "guides/intro/index.md"))) =
      "guides/intro" :=
  ⟨(deriveSlug_spec "x.md" (some " Custom-Slug ")).1 " Custom-Slug " rfl (by decide),
   (deriveSlug_spec "guides/intro/index.md" none).2 (Or.inl rfl),
   by decide, by decide⟩

/-- **C10**: an empty corpus is not an error — the run finishes normally and
writes the artifact serializing the empty sequence. -/
theorem run_empty_corpus (stripMd : String → String)
    (extractor : List String → Except Unit (List Vec)) (disk : Option (List IndexEntry)) :
    run stripMd extractor [] disk = { disk := some [], result := .ok (), calls := [] } := rfl

/-! ## Concrete inputs for the run-level claims -/

/-- A provider that maps each text to a vector pointwise and never throws:
the spec's assumption of a same-length, same-order output per batch. -/
def pointwiseEx (vf : String → Vec) : List String → Except Unit (List Vec) :=
  fun ts => .ok (ts.map vf)

/-- The constant vector `[7]` for every text. -/
def vf7 : String → Vec := fun _ => [7]

def exConst7 : List String → Except Unit (List Vec) := pointwiseEx vf7

/-- A provider whose call always throws. -/
def exFail : List String → Except Unit (List Vec) := fun _ => .error ()

def frontA : Front :=
  { draft := false, slug := none, title := none, description := none, body := bodyA }

/-- A non-draft document at `a.md`, mtime 100, whose body is one long
paragraph; its derived slug is `a` and its single fragment id `a#para-0`. -/
def fileA : SrcFile := { relPath := "a.md", mtime := 100, parsed := some frontA }

/-- A previous-artifact record for slug `a` at mtime 100, exactly as this
script would have written it (id `a#para-0`). -/
def entryA : IndexEntry :=
  { id := "a#para-0", slug := "a", title := "a", description := "", mtime := 100, vector := [3] }

/-- A previous-artifact record whose id coincides with the slug `a`, making
the skip-unchanged lookup `prev[slug]` hit. -/
def entrySlugKey : IndexEntry :=
  { id := "a", slug := "a", title := "a", description := "", mtime := 100, vector := [3] }

/-- The entry a fresh recomputation of `fileA` under `exConst7` produces. -/
def entryFreshA : IndexEntry :=
  { id := "a#para-0", slug := "a", title := "a", description := "", mtime := 100, vector := [7] }

/-- A document whose front matter gray-matter cannot parse. -/
def fileBad : SrcFile := { relPath := "bad.md", mtime := 1, parsed := none }

def frontD : Front :=
  { draft := true, slug := none, title := none, description := none, body := bodyA }

/-- A draft document at `d.md`. -/
def fileDraft : SrcFile := { relPath := "d.md", mtime := 7, parsed := some frontD }

/-- The i-th of seventeen single-fragment documents `q0.md` … `q16.md`. -/
def fileQ (i : Nat) : SrcFile :=
  { relPath := "q" ++ toString i ++ ".md", mtime := 5,
    parsed := some { draft := false, slug := none, title := none, description := none,
                     body := bodyA } }

/-- Seventeen documents, so that exactly 17 fragments are queued and the
queue never reaches the throttle threshold of 32 during the loop. -/
def filesQ : List SrcFile := (List.range 17).map fileQ

/-! ## Claim theorems: the build driver -/

/-- **C1 (code defect)**: the previous index records slug `a` at mtime 100 and
`fileA` has mtime 100, yet the run invokes the provider with `a`'s text and
the previous entry does not appear in the new artifact.  The load keys `prev`
by entry **id** (`a#para-0`), so `prev[slug]` misses (first conjunct); even
when the lookup hits (an artifact entry whose id equals the slug), the
document is skipped without carrying its previous entries forward — they
vanish from the new artifact (second conjunct). -/
theorem run_no_carry_forward_bug :
    ((run id exConst7 [fileA] (some [entryA])).calls = [["a. . " ++ bodyA]] ∧
      (run id exConst7 [fileA] (some [entryA])).disk = some [entryFreshA] ∧
      entryA ∉ [entryFreshA]) ∧
    ((run id exConst7 [fileA] (some [entrySlugKey])).result = Except.ok () ∧
      (run id exConst7 [fileA] (some [entrySlugKey])).disk = some []) :=
  ⟨⟨by decide, by decide, by decide⟩, rfl, by decide⟩

/-- **C2 (code defect)**: with 17 fragments queued at loop end, the single
final `flushBatch()` drains only one batch of `BATCH_SIZE = 16`: the run
finishes normally but the artifact holds only the first 16 entries, silently
dropping `q16#para-0` even though `q16.md` contributed it to the queue. -/
theorem run_final_flush_drops_bug :
    ((run id exConst7 filesQ none).disk.getD []).map IndexEntry.id =
      (List.range 16).map (fun i => "q" ++ toString i ++ "#para-0") ∧
    (docItems id (buildPrev []) (fileQ 16)).map (fun it => it.meta.id) = ["q16#para-0"] ∧
    (run id exConst7 filesQ none).result = Except.ok () :=
  ⟨by decide, by decide, rfl⟩

/-- **C3**: if the provider call throws on some batch, the run aborts without
writing: the on-disk artifact after the run equals the artifact before it. -/
theorem run_provider_error_preserves_disk (stripMd : String → String)
    (extractor : List String → Except Unit (List Vec))
    (files : List SrcFile) (disk : Option (List IndexEntry))
    (h : (run stripMd extractor files disk).result = .error .provider) :
    (run stripMd extractor files disk).disk = disk := by
  unfold run at h ⊢
  by_cases hemp : files.isEmpty
  · rw [if_pos hemp] at h
    exact absurd h (by simp)
  · rw [if_neg hemp] at h ⊢
    cases hl : loopDocs stripMd extractor (buildPrev (disk.getD [])) files ⟨[], [], []⟩ with
    | error e => rfl
    | ok st =>
      rw [hl] at h
      dsimp only at h ⊢
      cases hf : flushBatch extractor st with
      | error e => rfl
      | ok st2 =>
        rw [hf] at h
        simp at h

theorem run_provider_error_preserves_disk_witness :
    (run id exFail [fileA] (some [entryA])).disk = some [entryA] :=
  run_provider_error_preserves_disk id exFail [fileA] (some [entryA]) rfl

theorem loopDocs_malformed_error (stripMd : String → String)
    (extractor : List String → Except Unit (List Vec)) (prev : String → Option Nat) :
    ∀ (fs : List SrcFile) (st : LoopState), (∃ f ∈ fs, f.parsed = none) →
      ∃ e, loopDocs stripMd extractor prev fs st = .error e := by
  intro fs
  induction fs with
  | nil =>
    intro st h
    simp at h
  | cons f fs ih =>
    intro st h
    rcases h with ⟨g, hg, hgp⟩
    rcases List.mem_cons.mp hg with rfl | hgfs
    · exact ⟨.malformed, by simp only [loopDocs, processDoc, hgp]⟩
    · cases hp : processDoc stripMd extractor prev f st with
      | error e => exact ⟨e, by simp only [loopDocs, hp]⟩
      | ok st2 =>
        obtain ⟨e, he⟩ := ih st2 ⟨g, hgfs, hgp⟩
        exact ⟨e, by simp only [loopDocs, hp]; exact he⟩

/-- **C9 counterexample**: a corpus with one unparseable document followed by
a healthy one does not proceed: the whole run aborts with the malformed-
document error and nothing is written — the healthy document is not indexed. -/
theorem run_malformed_aborts_cex :
    (run id exConst7 [fileBad, fileA] none).result = Except.error BuildErr.malformed ∧
    (run id exConst7 [fileBad, fileA] none).disk = none :=
  ⟨rfl, rfl⟩

/-- **C9 (amended)**: a document whose front matter cannot be parsed aborts
the entire build — the run does not finish normally and the on-disk artifact
is left exactly as it was; the remaining corpus is not indexed. -/
theorem run_malformed_aborts (stripMd : String → String)
    (extractor : List String → Except Unit (List Vec))
    (files : List SrcFile) (disk : Option (List IndexEntry))
    (h : ∃ f ∈ files, f.parsed = none) :
    (run stripMd extractor files disk).result ≠ .ok () ∧
    (run stripMd extractor files disk).disk = disk := by
  have hemp : files.isEmpty = false := by
    rcases h with ⟨f, hf, _⟩
    cases files
    · simp at hf
    · rfl
  obtain ⟨e, he⟩ :=
    loopDocs_malformed_error stripMd extractor (buildPrev (disk.getD [])) files ⟨[], [], []⟩ h
  unfold run
  rw [if_neg (by simp [hemp]), he]
  exact ⟨by simp, rfl⟩

theorem run_malformed_aborts_witness :
    (run id exConst7 [fileBad] (some [entryA])).result ≠ .ok () ∧
    (run id exConst7 [fileBad] (some [entryA])).disk = some [entryA] :=
  run_malformed_aborts id exConst7 [fileBad] (some [entryA]) ⟨fileBad, by simp, rfl⟩

/-! ## Provenance of output entries (for draft exclusion) -/

/-- `s` is the derived slug of some non-draft, parseable document of the
corpus. -/
def slugFromFiles (files : List SrcFile) (s : String) : Prop :=
  ∃ g ∈ files, ∃ gm, g.parsed = some gm ∧ gm.draft = false ∧
    s = deriveSlug g.relPath gm.slug

/-- Every queued item and accumulated entry carries such a slug. -/
def StateOK (files : List SrcFile) (st : LoopState) : Prop :=
  (∀ it ∈ st.queue, slugFromFiles files it.meta.slug) ∧
  (∀ e ∈ st.embeddings, slugFromFiles files e.slug)

theorem stateOK_nil (files : List SrcFile) : StateOK files ⟨[], [], []⟩ :=
  ⟨fun _ h => absurd h (List.not_mem_nil _), fun _ h => absurd h (List.not_mem_nil _)⟩

theorem docItems_slug (stripMd : String → String) (prev : String → Option Nat)
    (f : SrcFile) :
    ∀ it ∈ docItems stripMd prev f,
      ∃ fm, f.parsed = some fm ∧ fm.draft = false ∧
        it.meta.slug = deriveSlug f.relPath fm.slug := by
  intro it hit
  unfold docItems at hit
  cases hp : f.parsed with
  | none => simp [hp] at hit
  | some fm =>
    cases hd : fm.draft with
    | true => simp [hp, hd] at hit
    | false =>
      cases hs : skipUnchanged prev (deriveSlug f.relPath fm.slug) f.mtime with
      | true => simp [hp, hd, hs] at hit
      | false =>
        simp only [hp, hd, hs, Bool.false_eq_true, if_false, List.mem_map] at hit
        rcases hit with ⟨ch, hch, rfl⟩
        exact ⟨fm, rfl, hd, rfl⟩

theorem flushBatch_stateOK {extractor : List String → Except Unit (List Vec)}
    {st st' : LoopState} {files : List SrcFile}
    (hf : flushBatch extractor st = .ok st')
    (hs : StateOK files st) : StateOK files st' := by
  unfold flushBatch at hf
  split at hf
  · cases hf
    exact hs
  · dsimp only at hf
    split at hf
    · exact absurd hf (by simp)
    · split at hf
      · exact absurd hf (by simp)
      · cases hf
        refine ⟨?_, ?_⟩
        · intro it hit
          exact hs.1 it (List.drop_subset _ _ hit)
        · intro e he
          rcases List.mem_append.mp he with h1 | h2
          · exact hs.2 e h1
          · rcases List.mem_map.mp h2 with ⟨p, hp, rfl⟩
            exact hs.1 p.1 (List.take_subset _ _ (List.of_mem_zip hp).1)

theorem processDoc_stateOK {stripMd : String → String}
    {extractor : List String → Except Unit (List Vec)} {prev : String → Option Nat}
    {f : SrcFile} {st st' : LoopState} {files : List SrcFile}
    (hmem : f ∈ files)
    (hp : processDoc stripMd extractor prev f st = .ok st')
    (hs : StateOK files st) : StateOK files st' := by
  have hpush : StateOK files { st with queue := st.queue ++ docItems stripMd prev f } := by
    refine ⟨?_, hs.2⟩
    intro it hit
    rcases List.mem_append.mp hit with h1 | h2
    · exact hs.1 it h1
    · rcases docItems_slug stripMd prev f it h2 with ⟨gm, hgm, hgd, hslug⟩
      exact ⟨f, hmem, gm, hgm, hgd, hslug⟩
  unfold processDoc at hp
  cases hpf : f.parsed with
  | none => rw [hpf] at hp; exact absurd hp (by simp)
  | some fm =>
    rw [hpf] at hp
    dsimp only at hp
    split at hp
    · cases hp; exact hs
    · split at hp
      · cases hp; exact hs
      · split at hp
        · exact flushBatch_stateOK hp hpush
        · cases hp; exact hpush

theorem loopDocs_stateOK {stripMd : String → String}
    {extractor : List String → Except Unit (List Vec)} {prev : String → Option Nat}
    {files : List SrcFile} :
    ∀ {fs : List SrcFile} {st st' : LoopState}, (∀ f ∈ fs, f ∈ files) →
      loopDocs stripMd extractor prev fs st = .ok st' →
      StateOK files st → StateOK files st' := by
  intro fs
  induction fs with
  | nil =>
    intro st st' _ hl hs
    unfold loopDocs at hl
    cases hl
    exact hs
  | cons f fs ih =>
    intro st st' hsub hl hs
    unfold loopDocs at hl
    cases hpd : processDoc stripMd extractor prev f st with
    | error e => rw [hpd] at hl; exact absurd hl (by simp)
    | ok st2 =>
      rw [hpd] at hl
      exact ih (fun g hg => hsub g (List.mem_cons_of_mem f hg)) hl
        (processDoc_stateOK (hsub f (List.mem_cons_self f fs)) hpd hs)

/-- **C7**: a draft document contributes zero IndexEntry records under its
slug — given the corpus-wide slug-uniqueness invariant (no non-draft document
derives the same slug), no entry of the written artifact carries the draft
document's slug; carried-over stale entries cannot appear either, since the
artifact of a finishing run consists solely of freshly computed entries. -/
theorem run_draft_excluded (stripMd : String → String)
    (extractor : List String → Except Unit (List Vec))
    (files : List SrcFile) (disk : Option (List IndexEntry))
    (f : SrcFile) (fm : Front) (entries : List IndexEntry)
    (hf : f ∈ files) (hfm : f.parsed = some fm) (hd : fm.draft = true)
    (huniq : ∀ g ∈ files, ∀ gm, g.parsed = some gm → gm.draft = false →
      deriveSlug g.relPath gm.slug ≠ deriveSlug f.relPath fm.slug)
    (hok : (run stripMd extractor files disk).result = .ok ())
    (hdisk : (run stripMd extractor files disk).disk = some entries) :
    ∀ e ∈ entries, e.slug ≠ deriveSlug f.relPath fm.slug := by
  intro e he
  unfold run at hok hdisk
  by_cases hemp : files.isEmpty
  · rw [if_pos hemp] at hdisk
    injection hdisk with hent
    rw [← hent] at he
    simp at he
  · rw [if_neg hemp] at hok hdisk
    cases hl : loopDocs stripMd extractor (buildPrev (disk.getD [])) files ⟨[], [], []⟩ with
    | error e2 => rw [hl] at hok; simp at hok
    | ok st =>
      rw [hl] at hok hdisk
      dsimp only at hok hdisk
      cases hfl : flushBatch extractor st with
      | error e2 => rw [hfl] at hok; simp at hok
      | ok st2 =>
        rw [hfl] at hdisk
        dsimp only at hdisk
        injection hdisk with hent
        have hst : StateOK files st :=
          loopDocs_stateOK (fun g hg => hg) hl (stateOK_nil files)
        have hst2 : StateOK files st2 := flushBatch_stateOK hfl hst
        rcases hst2.2 e (hent ▸ he) with ⟨g, hg, gm, hgm, hgd, hslug⟩
        rw [hslug]
        exact huniq g hg gm hgm hgd

theorem run_draft_excluded_witness :
    entryFreshA.slug ≠ deriveSlug fileDraft.relPath frontD.slug ∧
    entryFreshA.slug = "a" ∧ deriveSlug fileDraft.relPath frontD.slug = "d" := by
  refine ⟨run_draft_excluded id exConst7 [fileDraft, fileA] none fileDraft frontD [entryFreshA]
    (by simp) rfl rfl ?_ rfl rfl entryFreshA (by simp), by decide, by decide⟩
  intro g hg gm hgm hgd
  rcases List.mem_cons.mp hg with rfl | hg2
  · simp only [fileDraft] at hgm
    injection hgm with h
    rw [← h] at hgd
    exact absurd hgd (by decide)
  · rcases List.mem_singleton.mp hg2 with rfl
    simp only [fileA] at hgm
    injection hgm with h
    rw [← h]
    decide

/-! ## Order and pairing of freshly computed entries -/

/-- The entry a queued fragment receives when the provider maps each text
pointwise by `vf`. -/
def mkFresh (vf : String → Vec) (it : QItem) : IndexEntry := entryOf it (vf it.text)

theorem zip_map_entryOf (vf : String → Vec) :
    ∀ l : List QItem,
      ((l.zip ((l.map QItem.text).map vf)).map fun p => entryOf p.1 p.2) =
        l.map (mkFresh vf) := by
  intro l
  induction l with
  | nil => rfl
  | cons a l ih => simpa [mkFresh] using ih

theorem eq_take_of_append_eq_map {α : Type} {β : Type} (f : α → β)
    (A B : List β) (L : List α) (h : A ++ B = L.map f) :
    A = (L.take A.length).map f := by
  rw [List.map_take, ← h, List.take_left]

theorem flushBatch_pointwise (vf : String → Vec) (st : LoopState) :
    ∃ st', flushBatch (pointwiseEx vf) st = .ok st' ∧
      st'.embeddings ++ st'.queue.map (mkFresh vf) =
        st.embeddings ++ st.queue.map (mkFresh vf) := by
  cases hq : st.queue.isEmpty with
  | true =>
    refine ⟨st, ?_, rfl⟩
    unfold flushBatch
    rw [hq]
    rfl
  | false =>
    have hlen : ¬ (((st.queue.take BATCH_SIZE).map QItem.text).map vf).length <
        (st.queue.take BATCH_SIZE).length := by simp
    have heq : flushBatch (pointwiseEx vf) st = .ok
        { queue := st.queue.drop BATCH_SIZE,
          embeddings := st.embeddings ++ (st.queue.take BATCH_SIZE).map (mkFresh vf),
          calls := st.calls ++ [(st.queue.take BATCH_SIZE).map QItem.text] } := by
      unfold flushBatch pointwiseEx
      rw [hq, if_neg Bool.false_ne_true]
      dsimp only
      rw [if_neg hlen, zip_map_entryOf]
    refine ⟨_, heq, ?_⟩
    dsimp only
    rw [List.append_assoc, ← List.map_append, List.take_append_drop]

theorem docItems_eq_nil_of_draft (stripMd : String → String) (prev : String → Option Nat)
    (f : SrcFile) (fm : Front) (hpf : f.parsed = some fm) (hd : fm.draft = true) :
    docItems stripMd prev f = [] := by
  simp [docItems, hpf, hd]

theorem docItems_eq_nil_of_skip (stripMd : String → String) (prev : String → Option Nat)
    (f : SrcFile) (fm : Front) (hpf : f.parsed = some fm) (hd : fm.draft = false)
    (hs : skipUnchanged prev (deriveSlug f.relPath fm.slug) f.mtime = true) :
    docItems stripMd prev f = [] := by
  simp [docItems, hpf, hd, hs]

theorem processDoc_pointwise (stripMd : String → String) (vf : String → Vec)
    (prev : String → Option Nat) (f : SrcFile) (st st' : LoopState)
    (hp : processDoc stripMd (pointwiseEx vf) prev f st = .ok st') :
    st'.embeddings ++ st'.queue.map (mkFresh vf) =
      st.embeddings ++ st.queue.map (mkFresh vf) ++
        (docItems stripMd prev f).map (mkFresh vf) := by
  unfold processDoc at hp
  cases hpf : f.parsed with
  | none => rw [hpf] at hp; exact absurd hp (by simp)
  | some fm =>
    rw [hpf] at hp
    dsimp only at hp
    split at hp
    · rename_i hd
      cases hp
      rw [docItems_eq_nil_of_draft stripMd prev f fm hpf hd]
      simp
    · rename_i hd
      have hd' : fm.draft = false := by
        revert hd
        cases fm.draft <;> simp
      split at hp
      · rename_i hs
        cases hp
        rw [docItems_eq_nil_of_skip stripMd prev f fm hpf hd' hs]
        simp
      · split at hp
        · rcases flushBatch_pointwise vf { st with queue := st.queue ++ docItems stripMd prev f }
            with ⟨st2, heq, hinv⟩
          rw [heq] at hp
          injection hp with hp2
          subst hp2
          rw [hinv]
          dsimp only
          simp [List.map_append, List.append_assoc]
        · injection hp with hp2
          subst hp2
          dsimp only
          simp [List.map_append, List.append_assoc]

theorem loopDocs_pointwise (stripMd : String → String) (vf : String → Vec)
    (prev : String → Option Nat) :
    ∀ (fs : List SrcFile) (st st' : LoopState),
      loopDocs stripMd (pointwiseEx vf) prev fs st = .ok st' →
      st'.embeddings ++ st'.queue.map (mkFresh vf) =
        st.embeddings ++ st.queue.map (mkFresh vf) ++
          (fs.flatMap (docItems stripMd prev)).map (mkFresh vf) := by
  intro fs
  induction fs with
  | nil =>
    intro st st' hl
    unfold loopDocs at hl
    cases hl
    simp
  | cons f fs ih =>
    intro st st' hl
    unfold loopDocs at hl
    cases hpd : processDoc stripMd (pointwiseEx vf) prev f st with
    | error e => rw [hpd] at hl; exact absurd hl (by simp)
    | ok st2 =>
      rw [hpd] at hl
      rw [ih st2 st' hl, processDoc_pointwise stripMd vf prev f st st2 hpd]
      simp [List.flatMap_cons, List.map_append, List.append_assoc]

/-- **C8**: assuming the provider returns a same-length, same-order vector
sequence per batch (modelled by a pointwise provider `vf`, quantified over
all `vf`), the freshly computed entries of a finishing run are exactly the
first `k` queued fragments — document-enumeration order, fragment order
within a document — each paired with the vector of its own submitted text. -/
theorem run_order_and_pairing (stripMd : String → String) (vf : String → Vec)
    (files : List SrcFile) (disk : Option (List IndexEntry)) (entries : List IndexEntry)
    (hok : (run stripMd (pointwiseEx vf) files disk).result = .ok ())
    (hdisk : (run stripMd (pointwiseEx vf) files disk).disk = some entries) :
    ∃ k, entries =
      ((files.flatMap (docItems stripMd (buildPrev (disk.getD [])))).take k).map
        (mkFresh vf) := by
  unfold run at hok hdisk
  by_cases hemp : files.isEmpty
  · rw [if_pos hemp] at hdisk
    have hfe : files = [] := List.isEmpty_iff.mp hemp
    subst hfe
    injection hdisk with hent
    exact ⟨0, by rw [← hent]; rfl⟩
  · rw [if_neg hemp] at hok hdisk
    cases hl : loopDocs stripMd (pointwiseEx vf) (buildPrev (disk.getD [])) files ⟨[], [], []⟩ with
    | error e => rw [hl] at hok; simp at hok
    | ok st =>
      rw [hl] at hok hdisk
      dsimp only at hok hdisk
      rcases flushBatch_pointwise vf st with ⟨st2, heq, hinv⟩
      rw [heq] at hdisk
      dsimp only at hdisk
      injection hdisk with hent
      have hloop := loopDocs_pointwise stripMd vf (buildPrev (disk.getD [])) files ⟨[], [], []⟩ st hl
      have hall : st2.embeddings ++ st2.queue.map (mkFresh vf) =
          (files.flatMap (docItems stripMd (buildPrev (disk.getD [])))).map (mkFresh vf) := by
        rw [hinv, hloop]
        simp
      refine ⟨st2.embeddings.length, ?_⟩
      rw [← hent]
      exact eq_take_of_append_eq_map (mkFresh vf) st2.embeddings
        (st2.queue.map (mkFresh vf)) _ hall

theorem run_order_and_pairing_witness :
    ∃ k, [entryFreshA] =
      (([fileA].flatMap (docItems id (buildPrev ((none : Option (List IndexEntry)).getD [])))).take k).map
        (mkFresh vf7) :=
  run_order_and_pairing id vf7 [fileA] none [entryFreshA] rfl rfl

end AiSearch
